import Mathlib

/-!
Verification of the rate-limited execution wrapper of the Job-Posting-Crew
repository (src/config.py, class Config).  The retry loop, the backoff
computation, the rate-limit wait and the delay-hint parser are shallowly
embedded below; timing side effects (time.sleep) are made observable as an
event trace, and the random jitter of calculate_delay is made an explicit
parameter ranging over the interval from 0 to JITTER_MAX.
-/

namespace JobPostingCrew

/-! ## Configuration constants (src/config.py, lines 28-33) -/

def BASE_REQUEST_DELAY : ℚ := 5
def MAX_REQUEST_DELAY : ℚ := 120
def RATE_LIMIT_DELAY : ℚ := 180
def MAX_RETRIES : Nat := 5
def EXPONENTIAL_BACKOFF_MULTIPLIER : ℚ := 2
def JITTER_MAX : ℚ := 2

/-! ## calculate_delay (src/config.py, lines 57-71)

The Python function draws jitter with random.uniform(0, JITTER_MAX); here
jitter is an explicit parameter.  The optional base_delay argument defaults
to BASE_REQUEST_DELAY in the source and is always used at that default by
the callers in the repository, so it is inlined. -/

def calculate_delay (attempt : Nat) (jitter : ℚ) : ℚ :=
  min (BASE_REQUEST_DELAY * EXPONENTIAL_BACKOFF_MULTIPLIER ^ attempt)
    MAX_REQUEST_DELAY + jitter

/-! ## extract_retry_delay (src/config.py, lines 92-105)

The source checks that the substrings retry_delay and seconds occur in the
message and then runs the regular expression
retry_delay \s* \x7b \s* seconds: \s* (\d+) with re.search, returning the
captured integer of the first match, or None.  The whole body is inside a
try/except returning None, so the function is total; the embedding below is
a total Lean function by construction. -/

def isWS (c : Char) : Bool :=
  c = ' ' || c = '\t' || c = '\n' || c = '\r' || c = '\x0b' || c = '\x0c'

/-- dropLit pat s returns the rest of s after the literal pat when pat is an
initial segment of s, and none otherwise. -/
def dropLit : List Char → List Char → Option (List Char)
  | [], s => some s
  | _ :: _, [] => none
  | p :: ps, c :: cs => if c = p then dropLit ps cs else none

/-- containsSub pat s models the Python substring test pat in s. -/
def containsSub (pat : List Char) : List Char → Bool
  | [] => (dropLit pat []).isSome
  | s@(_ :: rest) => (dropLit pat s).isSome || containsSub pat rest

/-- digitsToNat models int() applied to a nonempty string of decimal digits. -/
def digitsToNat (ds : List Char) : Nat :=
  ds.foldl (fun acc c => 10 * acc + (c.toNat - 48)) 0

/-- matchHintAt s attempts to match the regular expression
retry_delay \s* \x7b \s* seconds: \s* (\d+) anchored at the start of s and
returns the captured integer.  Every quantified class is followed by a
character outside that class, so the greedy semantics of re is exactly
dropWhile / takeWhile. -/
def matchHintAt (s : List Char) : Option Nat :=
  match dropLit ("retry_delay".toList) s with
  | none => none
  | some s1 =>
    match s1.dropWhile isWS with
    | [] => none
    | c :: s3 =>
      if c = '\x7b' then
        match dropLit ("seconds:".toList) (s3.dropWhile isWS) with
        | none => none
        | some s5 =>
          let ds := (s5.dropWhile isWS).takeWhile (fun c => c.isDigit)
          if ds.isEmpty then none else some (digitsToNat ds)
      else none

/-- searchHint models re.search: try the anchored match at every start
position, left to right, and return the first success. -/
def searchHint : List Char → Option Nat
  | [] => none
  | s@(_ :: rest) =>
    match matchHintAt s with
    | some v => some v
    | none => searchHint rest

def extract_retry_delay (error_message : String) : Option Nat :=
  if containsSub ("retry_delay".toList) error_message.toList
      && containsSub ("seconds".toList) error_message.toList then
    searchHint error_message.toList
  else
    none

/-! ## handle_rate_limit (src/config.py, lines 80-90)

The source sleeps for the computed delay; the embedding returns the number
of seconds slept.  The Python truthiness test if retry_delay_seconds treats
both None and 0 as absent. -/

def handle_rate_limit_delay (retry_delay_seconds : Option Nat) : ℚ :=
  match retry_delay_seconds with
  | some s => if 0 < s then max (s : ℚ) RATE_LIMIT_DELAY else RATE_LIMIT_DELAY
  | none => RATE_LIMIT_DELAY

/-! ## execute_with_retry (src/config.py, lines 107-147)

Errors raised by the wrapped callable are either ResourceExhausted, caught
by the first except clause, or any other Exception, caught by the second;
both carry a message.  The loop is embedded as a structurally recursive
function on the number of remaining iterations (remaining = max_retries -
attempt at every call), with the tests written exactly as in the source.
Sleeps are recorded as events: backoffWait i is a call
wait_between_requests(i), which sleeps calculate_delay(i) seconds, and
rateLimitWait d is a call of handle_rate_limit that sleeps d seconds. -/

inductive Err where
  | rateLimited (msg : String)
  | generic (msg : String)
deriving DecidableEq

inductive Event where
  | invoke (attempt : Nat)
  | backoffWait (attempt : Nat)
  | rateLimitWait (seconds : ℚ)
deriving DecidableEq

inductive RetryResult (α : Type) where
  | ok (a : α)
  | exhausted (e : Err)
  | noAttempts
deriving DecidableEq

def retryLoopAux (op : Nat → Except Err α) (max_retries : Nat) :
    Nat → Nat → Option Err → List Event × RetryResult α
  | 0, _, last =>
    ([], match last with
         | some e => RetryResult.exhausted e
         | none => RetryResult.noAttempts)
  | rem + 1, attempt, _last =>
    let pre : List Event :=
      if 0 < attempt then [Event.backoffWait attempt] else []
    match op attempt with
    | Except.ok a => (pre ++ [Event.invoke attempt], RetryResult.ok a)
    | Except.error e =>
      match e with
      | Err.rateLimited msg =>
        let post : List Event :=
          if attempt < max_retries - 1 then
            [Event.rateLimitWait (handle_rate_limit_delay
              (extract_retry_delay msg))]
          else []
        let next := retryLoopAux op max_retries rem (attempt + 1) (some e)
        (pre ++ Event.invoke attempt :: post ++ next.1, next.2)
      | Err.generic _ =>
        if attempt < max_retries - 1 then
          let next := retryLoopAux op max_retries rem (attempt + 1) (some e)
          (pre ++ Event.invoke attempt :: Event.backoffWait attempt :: next.1,
            next.2)
        else
          (pre ++ [Event.invoke attempt], RetryResult.exhausted e)

/-- execute_with_retry func with an explicit max_retries argument.  The
operation op gives the outcome of each invocation, indexed by the attempt
number; the returned pair is the trace of invocations and sleeps together
with the outcome: ok on success, exhausted e for raise last_exception, and
noAttempts for the defensive raise Exception of line 147. -/
def execute_with_retry (op : Nat → Except Err α) (max_retries : Nat) :
    List Event × RetryResult α :=
  retryLoopAux op max_retries max_retries 0 none

/-! ## Spec-side notion of a parseable delay hint

IsHintOccurrence states, following the spec, that the message contains an
occurrence of the textual pattern retry_delay \x7b seconds: <integer>, with
arbitrary whitespace at the three gaps.  It is used to state the malformed
hint fallback claim independently of the parser implementation. -/

def IsHintOccurrence (msg : String) : Prop :=
  ∃ p w1 w2 w3 d r : List Char,
    msg.toList = p ++ ("retry_delay".toList ++ (w1 ++ ('\x7b' ::
      (w2 ++ ("seconds:".toList ++ (w3 ++ (d ++ r))))))) ∧
    (∀ c ∈ w1, isWS c = true) ∧ (∀ c ∈ w2, isWS c = true) ∧
    (∀ c ∈ w3, isWS c = true) ∧ d ≠ [] ∧ (∀ c ∈ d, c.isDigit = true)

def isInvoke : Event → Bool
  | Event.invoke _ => true
  | _ => false

def isWait : Event → Bool
  | Event.invoke _ => false
  | _ => true

def numInvokes (tr : List Event) : Nat := (tr.filter isInvoke).length

def numWaits (tr : List Event) : Nat := (tr.filter isWait).length

/-- Operation of the spec scenario for maxRetries = 2: every invocation
raises a generic, non-rate-limit error; the two invocations raise
distinguishable errors so that the terminal failure can be identified. -/
def opC7 : Nat → Except Err Unit := fun i =>
  if i = 0 then Except.error (Err.generic "first")
  else Except.error (Err.generic "second")

/-- Operation of the spec scenario for maxRetries = 3: rate-limited with no
delay hint on the first two invocations, success on the third. -/
def opC8 : Nat → Except Err Unit := fun i =>
  if i < 2 then Except.error (Err.rateLimited "quota exceeded")
  else Except.ok ()

/-- Error message carrying a parseable delay hint of 45 seconds. -/
def msg45 : String :=
  "429 Resource has been exhausted. retry_delay \x7b seconds: 45 \x7d"

/-- Error message carrying a parseable delay hint of 300 seconds. -/
def msg300 : String :=
  "429 Resource has been exhausted. retry_delay \x7b seconds: 300 \x7d"

/-- Operation that fails twice with a generic error and succeeds on its
third invocation (0-based attempt 2). -/
def opC2 : Nat → Except Err Unit := fun i =>
  if i < 2 then Except.error (Err.generic "transient") else Except.ok ()

/-- Error of each attempt for the last-error propagation scenario. -/
def errC9 : Nat → Err := fun i =>
  if i = 0 then Err.generic "first error" else Err.generic "second error"

/-- Operation raising errC9 on every invocation. -/
def opC9 : Nat → Except Err Unit := fun i => Except.error (errC9 i)

/-! ## Lemmas about the literal matcher and substring search -/

lemma dropLit_self_append (p s : List Char) : dropLit p (p ++ s) = some s := by
  induction p with
  | nil => rfl
  | cons x ps ih => simp [dropLit, ih]

lemma dropLit_eq_some (p : List Char) :
    ∀ s r, dropLit p s = some r → s = p ++ r := by
  induction p with
  | nil =>
    intro s r h
    simp only [dropLit, Option.some.injEq] at h
    simp [h]
  | cons x ps ih =>
    intro s r h
    cases s with
    | nil => simp [dropLit] at h
    | cons c cs =>
      simp only [dropLit] at h
      by_cases hc : c = x
      · rw [if_pos hc] at h
        subst hc
        simpa using ih cs r h
      · rw [if_neg hc] at h
        exact absurd h (by simp)

lemma containsSub_of_isSome (pat s : List Char)
    (h : (dropLit pat s).isSome = true) : containsSub pat s = true := by
  cases s with
  | nil => simpa [containsSub] using h
  | cons c cs => simp [containsSub, h]

lemma containsSub_of_decomp (pat a b : List Char) :
    containsSub pat (a ++ (pat ++ b)) = true := by
  induction a with
  | nil => exact containsSub_of_isSome _ _ (by simp [dropLit_self_append])
  | cons x xs ih => simp [containsSub, ih]

lemma dropWhile_append_of_all (p : Char → Bool) (w l : List Char)
    (hw : ∀ c ∈ w, p c = true) :
    List.dropWhile p (w ++ l) = List.dropWhile p l := by
  induction w with
  | nil => rfl
  | cons x xs ih =>
    have hx : p x = true := hw x (by simp)
    rw [List.cons_append, List.dropWhile_cons_of_pos hx]
    exact ih (fun c hc => hw c (by simp [hc]))

/-- soundness of the anchored pattern matcher: a successful match at the
start of t decomposes t into the literal pieces of the pattern. -/
lemma matchHintAt_sound (t : List Char) (v : Nat) (h : matchHintAt t = some v) :
    ∃ w1 w2 w3 d r : List Char,
      t = ("retry_delay".toList ++ (w1 ++ ('\x7b' ::
        (w2 ++ ("seconds:".toList ++ (w3 ++ (d ++ r))))))) ∧
      (∀ c ∈ w1, isWS c = true) ∧ (∀ c ∈ w2, isWS c = true) ∧
      (∀ c ∈ w3, isWS c = true) ∧ d ≠ [] ∧ (∀ c ∈ d, c.isDigit = true) := by
  unfold matchHintAt at h
  cases h1 : dropLit ("retry_delay".toList) t with
  | none => rw [h1] at h; simp at h
  | some s1 =>
    rw [h1] at h
    simp only [] at h
    have ht1 : t = "retry_delay".toList ++ s1 := dropLit_eq_some _ _ _ h1
    cases h2 : s1.dropWhile isWS with
    | nil => rw [h2] at h; simp at h
    | cons c s3 =>
      rw [h2] at h
      simp only [] at h
      by_cases hc : c = '\x7b'
      · rw [if_pos hc] at h
        subst hc
        have hs1 : s1 = s1.takeWhile isWS ++ ('\x7b' :: s3) := by
          conv_lhs => rw [← List.takeWhile_append_dropWhile (p := isWS) (l := s1)]
          rw [h2]
        cases h3 : dropLit ("seconds:".toList) (s3.dropWhile isWS) with
        | none => rw [h3] at h; simp at h
        | some s5 =>
          rw [h3] at h
          simp only [] at h
          have hs3 : s3 = s3.takeWhile isWS ++ ("seconds:".toList ++ s5) := by
            conv_lhs => rw [← List.takeWhile_append_dropWhile (p := isWS) (l := s3)]
            rw [dropLit_eq_some _ _ _ h3]
          have hs5 : s5 = s5.takeWhile isWS ++
              ((s5.dropWhile isWS).takeWhile (fun c => c.isDigit) ++
               (s5.dropWhile isWS).dropWhile (fun c => c.isDigit)) := by
            conv_lhs => rw [← List.takeWhile_append_dropWhile (p := isWS) (l := s5)]
            congr 1
            exact (List.takeWhile_append_dropWhile _ _).symm
          by_cases hds :
              ((s5.dropWhile isWS).takeWhile (fun c => c.isDigit)).isEmpty
          · rw [if_pos hds] at h; simp at h
          · rw [if_neg hds] at h
            refine ⟨s1.takeWhile isWS, s3.takeWhile isWS, s5.takeWhile isWS,
              (s5.dropWhile isWS).takeWhile (fun c => c.isDigit),
              (s5.dropWhile isWS).dropWhile (fun c => c.isDigit),
              ?_, ?_, ?_, ?_, ?_, ?_⟩
            · rw [ht1]
              conv_lhs => rw [hs1, hs3, hs5]
            · exact fun c hc => List.mem_takeWhile_imp hc
            · exact fun c hc => List.mem_takeWhile_imp hc
            · exact fun c hc => List.mem_takeWhile_imp hc
            · intro hnil
              rw [hnil] at hds
              simp [List.isEmpty] at hds
            · exact fun c hc => List.mem_takeWhile_imp hc
      · rw [if_neg hc] at h
        simp at h

lemma searchHint_sound :
    ∀ (s : List Char) (v : Nat), searchHint s = some v →
      ∃ p t, s = p ++ t ∧ matchHintAt t = some v := by
  intro s
  induction s with
  | nil => intro v h; simp [searchHint] at h
  | cons c cs ih =>
    intro v h
    unfold searchHint at h
    cases hm : matchHintAt (c :: cs) with
    | some w =>
      rw [hm] at h
      simp only [Option.some.injEq] at h
      exact ⟨[], c :: cs, by simp, by rw [hm, h]⟩
    | none =>
      rw [hm] at h
      obtain ⟨p, t, hp, hmt⟩ := ih v h
      exact ⟨c :: p, t, by simp [hp], hmt⟩

/-- soundness of extract_retry_delay: whenever the parser produces a hint the
message really contains an occurrence of the pattern. -/
lemma extract_retry_delay_sound (msg : String) (v : Nat)
    (h : extract_retry_delay msg = some v) : IsHintOccurrence msg := by
  unfold extract_retry_delay at h
  by_cases hc : (containsSub ("retry_delay".toList) msg.toList
      && containsSub ("seconds".toList) msg.toList) = true
  · rw [if_pos hc] at h
    obtain ⟨p, t, hp, hmt⟩ := searchHint_sound _ _ h
    obtain ⟨w1, w2, w3, d, r, ht, hw1, hw2, hw3, hd, hdig⟩ :=
      matchHintAt_sound _ _ hmt
    exact ⟨p, w1, w2, w3, d, r, by rw [hp, ht], hw1, hw2, hw3, hd, hdig⟩
  · rw [if_neg hc] at h
    exact absurd h (by simp)

/-- an occurrence of the pattern forces the substring retry_delay to occur,
used to refute IsHintOccurrence on concrete hint-free messages. -/
lemma isHint_contains (msg : String) (h : IsHintOccurrence msg) :
    containsSub ("retry_delay".toList) msg.toList = true := by
  obtain ⟨p, w1, w2, w3, d, r, heq, -, -, -, -, -⟩ := h
  rw [heq]
  exact containsSub_of_decomp ("retry_delay".toList) p _

/-! ## Lemmas about the retry loop trace -/

@[simp] lemma numInvokes_nil : numInvokes [] = 0 := rfl

@[simp] lemma numInvokes_invoke_cons (i : Nat) (l : List Event) :
    numInvokes (Event.invoke i :: l) = numInvokes l + 1 := by
  simp [numInvokes, List.filter_cons, isInvoke, Nat.add_comm]

@[simp] lemma numInvokes_backoff_cons (i : Nat) (l : List Event) :
    numInvokes (Event.backoffWait i :: l) = numInvokes l := by
  simp [numInvokes, List.filter_cons, isInvoke]

@[simp] lemma numInvokes_rl_cons (d : ℚ) (l : List Event) :
    numInvokes (Event.rateLimitWait d :: l) = numInvokes l := by
  simp [numInvokes, List.filter_cons, isInvoke]

@[simp] lemma numInvokes_append (a b : List Event) :
    numInvokes (a ++ b) = numInvokes a + numInvokes b := by
  simp [numInvokes, List.filter_append]

@[simp] lemma numInvokes_backoff_ite (b : Prop) [Decidable b] (i : Nat) :
    numInvokes (if b then [Event.backoffWait i] else []) = 0 := by
  split <;> rfl

@[simp] lemma numInvokes_rl_ite (b : Prop) [Decidable b] (d : ℚ) :
    numInvokes (if b then [Event.rateLimitWait d] else []) = 0 := by
  split <;> rfl

/-- an operation that fails on every attempt drives the loop through all the
remaining iterations: the result is exhausted with the error of the final
attempt, the number of invocations equals the number of remaining
iterations, and the trace ends with the final invocation (so no wait
follows the final failure). -/
lemma retryLoopAux_all_fail {α : Type} (op : Nat → Except Err α)
    (err : Nat → Err) (hop : ∀ i, op i = Except.error (err i)) (n : Nat) :
    ∀ rem attempt last, rem + attempt = n → 0 < rem →
      (retryLoopAux op n rem attempt last).2
          = RetryResult.exhausted (err (n - 1)) ∧
      numInvokes (retryLoopAux op n rem attempt last).1 = rem ∧
      ∃ tr, (retryLoopAux op n rem attempt last).1
          = tr ++ [Event.invoke (n - 1)] := by
  intro rem
  induction rem with
  | zero => intro attempt last hsum h0; exact absurd h0 (by omega)
  | succ rem ih =>
    intro attempt last hsum _
    rcases Nat.eq_zero_or_pos rem with hrem | hrem
    · subst hrem
      have hatt : attempt = n - 1 := by omega
      have hfin : ¬ (attempt < n - 1) := by omega
      rcases herr : err attempt with msg | msg
      · simp only [retryLoopAux, hop attempt, herr, if_neg hfin]
        refine ⟨by simp [retryLoopAux, ← herr, hatt], by simp, ?_⟩
        exact ⟨if 0 < attempt then [Event.backoffWait attempt] else [],
          by simp [hatt]⟩
      · simp only [retryLoopAux, hop attempt, herr, if_neg hfin]
        refine ⟨by simp [← herr, hatt], by simp, ?_⟩
        exact ⟨if 0 < attempt then [Event.backoffWait attempt] else [],
          by simp [hatt]⟩
    · have hfin : attempt < n - 1 := by omega
      obtain ⟨hres, hcount, tr, htr⟩ :=
        ih (attempt + 1) (some (err attempt)) (by omega) hrem
      rcases herr : err attempt with msg | msg
      · rw [herr] at hres hcount htr
        simp only [retryLoopAux, hop attempt, herr, if_pos hfin]
        refine ⟨hres, by simp [hcount], ?_⟩
        refine ⟨(if 0 < attempt then [Event.backoffWait attempt] else []) ++
          Event.invoke attempt ::
            Event.rateLimitWait (handle_rate_limit_delay
              (extract_retry_delay msg)) :: tr, ?_⟩
        simp [htr]
      · rw [herr] at hres hcount htr
        simp only [retryLoopAux, hop attempt, herr, if_pos hfin]
        refine ⟨hres, by simp [hcount], ?_⟩
        refine ⟨(if 0 < attempt then [Event.backoffWait attempt] else []) ++
          Event.invoke attempt :: Event.backoffWait attempt :: tr, ?_⟩
        simp [htr]

/-- an operation that fails on attempts before k and succeeds on attempt k
returns the successful result, performs k + 1 - attempt invocations from the
current attempt on, and its trace ends with the successful invocation (so
no wait follows the success). -/
lemma retryLoopAux_succeeds {α : Type} (op : Nat → Except Err α)
    (err : Nat → Err) (a : α) (k : Nat)
    (hfail : ∀ i, i < k → op i = Except.error (err i))
    (hsucc : op k = Except.ok a) (n : Nat) :
    ∀ rem attempt last, rem + attempt = n → attempt ≤ k → k < n →
      (retryLoopAux op n rem attempt last).2 = RetryResult.ok a ∧
      numInvokes (retryLoopAux op n rem attempt last).1 = k + 1 - attempt ∧
      ∃ tr, (retryLoopAux op n rem attempt last).1
          = tr ++ [Event.invoke k] := by
  intro rem
  induction rem with
  | zero => intro attempt last hsum hak hkn; exact absurd hkn (by omega)
  | succ rem ih =>
    intro attempt last hsum hak hkn
    rcases Nat.lt_or_ge attempt k with hlt | hge
    · have hfin : attempt < n - 1 := by omega
      obtain ⟨hres, hcount, tr, htr⟩ :=
        ih (attempt + 1) (some (err attempt)) (by omega) (by omega) hkn
      rcases herr : err attempt with msg | msg
      · rw [herr] at hres hcount htr
        simp only [retryLoopAux, hfail attempt hlt, herr, if_pos hfin]
        refine ⟨hres, by simp [hcount]; omega, ?_⟩
        refine ⟨(if 0 < attempt then [Event.backoffWait attempt] else []) ++
          Event.invoke attempt ::
            Event.rateLimitWait (handle_rate_limit_delay
              (extract_retry_delay msg)) :: tr, ?_⟩
        simp [htr]
      · rw [herr] at hres hcount htr
        simp only [retryLoopAux, hfail attempt hlt, herr, if_pos hfin]
        refine ⟨hres, by simp [hcount]; omega, ?_⟩
        refine ⟨(if 0 < attempt then [Event.backoffWait attempt] else []) ++
          Event.invoke attempt :: Event.backoffWait attempt :: tr, ?_⟩
        simp [htr]
    · have heq : attempt = k := by omega
      subst heq
      refine ⟨by simp [retryLoopAux, hsucc], ?_, ?_⟩
      · simp [retryLoopAux, hsucc]
      · exact ⟨if 0 < attempt then [Event.backoffWait attempt] else [],
          by simp [retryLoopAux, hsucc]⟩

/-- the trace of a run always begins with the very first invocation: no wait
precedes attempt 0. -/
lemma retryLoopAux_head {α : Type} (op : Nat → Except Err α)
    (n rem : Nat) (last : Option Err) (h : 0 < rem) :
    (retryLoopAux op n rem 0 last).1.head? = some (Event.invoke 0) := by
  cases rem with
  | zero => exact absurd h (by omega)
  | succ rem =>
    rcases hop : op 0 with e | a
    · rcases e with msg | msg
      · simp [retryLoopAux, hop]
      · simp only [retryLoopAux, hop]
        split
        · simp
        · simp
    · simp [retryLoopAux, hop]

/-- once a failure has been recorded the loop can no longer reach the
defensive no-error branch. -/
lemma retryLoopAux_some_ne {α : Type} (op : Nat → Except Err α) (n : Nat) :
    ∀ rem attempt e,
      (retryLoopAux op n rem attempt (some e)).2 ≠ RetryResult.noAttempts := by
  intro rem
  induction rem with
  | zero => intro attempt e; simp [retryLoopAux]
  | succ rem ih =>
    intro attempt e
    rcases hop : op attempt with e2 | a
    · rcases e2 with msg | msg
      · simpa [retryLoopAux, hop] using ih (attempt + 1) (Err.rateLimited msg)
      · simp only [retryLoopAux, hop]
        split
        · simpa using ih (attempt + 1) (Err.generic msg)
        · simp
    · simp [retryLoopAux, hop]

/-- with a positive retry budget the defensive no-error branch is
unreachable: the first iteration either succeeds or records a failure. -/
lemma retryLoopAux_pos_ne {α : Type} (op : Nat → Except Err α)
    (n rem attempt : Nat) (last : Option Err) (h : 0 < rem) :
    (retryLoopAux op n rem attempt last).2 ≠ RetryResult.noAttempts := by
  cases rem with
  | zero => exact absurd h (by omega)
  | succ rem =>
    rcases hop : op attempt with e | a
    · rcases e with msg | msg
      · simpa [retryLoopAux, hop] using
          retryLoopAux_some_ne op n rem (attempt + 1) (Err.rateLimited msg)
      · simp only [retryLoopAux, hop]
        split
        · simpa using
            retryLoopAux_some_ne op n rem (attempt + 1) (Err.generic msg)
        · simp
    · simp [retryLoopAux, hop]

/-! ## Claim theorems -/

/-- C1: for every operation that fails on every invocation and every
max_retries = n at least 1, execute_with_retry invokes the operation
exactly n times, never more and never fewer, before terminating with a
failure. -/
theorem c1_retry_budget_exact {α : Type} (op : Nat → Except Err α)
    (err : Nat → Err) (n : Nat) (hn : 1 ≤ n)
    (hop : ∀ i, op i = Except.error (err i)) :
    numInvokes (execute_with_retry op n).1 = n ∧
    ∃ e, (execute_with_retry op n).2 = RetryResult.exhausted e := by
  obtain ⟨hres, hcount, -⟩ :=
    retryLoopAux_all_fail op err hop n n 0 none (by omega) (by omega)
  exact ⟨hcount, err (n - 1), hres⟩

/-- witness for C1: an always-failing operation with budget 3 is invoked
exactly 3 times and the run ends in a failure. -/
theorem c1_retry_budget_exact_witness :
    numInvokes (execute_with_retry
      ((fun _ => Except.error (Err.generic "boom")) : Nat → Except Err Unit)
      3).1 = 3 ∧
    ∃ e, (execute_with_retry
      ((fun _ => Except.error (Err.generic "boom")) : Nat → Except Err Unit)
      3).2 = RetryResult.exhausted e :=
  c1_retry_budget_exact _ (fun _ => Err.generic "boom") 3 (by omega)
    (fun _ => rfl)

/-- C2: an operation that succeeds on attempt k (0-based, k below
max_retries) after failing on attempts 0..k-1 is invoked exactly k+1
times, its result is returned, no wait follows the successful invocation
(the trace ends with it), and no wait precedes the very first attempt
(the trace begins with invocation 0). -/
theorem c2_early_success {α : Type} (op : Nat → Except Err α)
    (err : Nat → Err) (a : α) (k n : Nat) (hk : k < n)
    (hfail : ∀ i, i < k → op i = Except.error (err i))
    (hsucc : op k = Except.ok a) :
    (execute_with_retry op n).2 = RetryResult.ok a ∧
    numInvokes (execute_with_retry op n).1 = k + 1 ∧
    (∃ tr, (execute_with_retry op n).1 = tr ++ [Event.invoke k]) ∧
    (execute_with_retry op n).1.head? = some (Event.invoke 0) := by
  obtain ⟨hres, hcount, htr⟩ :=
    retryLoopAux_succeeds op err a k hfail hsucc n n 0 none (by omega)
      (by omega) hk
  exact ⟨hres, by simpa using hcount, htr,
    retryLoopAux_head op n n none (by omega)⟩

/-- witness for C2: success on attempt 2 with budget 4 gives 3 invocations,
the returned result, no wait after success and none before attempt 0. -/
theorem c2_early_success_witness :
    (execute_with_retry opC2 4).2 = RetryResult.ok () ∧
    numInvokes (execute_with_retry opC2 4).1 = 3 ∧
    (∃ tr, (execute_with_retry opC2 4).1 = tr ++ [Event.invoke 2]) ∧
    (execute_with_retry opC2 4).1.head? = some (Event.invoke 0) :=
  c2_early_success opC2 (fun _ => Err.generic "transient") () 2 4
    (by omega) (fun i hi => if_pos hi) rfl

/-- C3: the wait of handle_rate_limit is the maximum of the parsed hint and
RATE_LIMIT_DELAY when a hint was parsed, and RATE_LIMIT_DELAY when none
was; concretely a hint of 45 seconds yields a wait of 180 and a hint of
300 seconds yields 300, and after a rate-limited failure on a non-final
attempt the loop performs exactly that wait. -/
theorem c3_rate_limit_hint_precedence :
    (∀ s : Nat,
      handle_rate_limit_delay (some s) = max (s : ℚ) RATE_LIMIT_DELAY) ∧
    handle_rate_limit_delay none = RATE_LIMIT_DELAY ∧
    handle_rate_limit_delay (extract_retry_delay msg45) = 180 ∧
    handle_rate_limit_delay (extract_retry_delay msg300) = 300 ∧
    (execute_with_retry
      ((fun _ => Except.error (Err.rateLimited msg45)) :
        Nat → Except Err Unit) 2).1
      = [Event.invoke 0, Event.rateLimitWait 180, Event.backoffWait 1,
         Event.invoke 1] := by
  refine ⟨?_, rfl, by decide, by decide, by decide⟩
  intro s
  rcases Nat.eq_zero_or_pos s with h | h
  · subst h
    norm_num [handle_rate_limit_delay, RATE_LIMIT_DELAY]
  · simp [handle_rate_limit_delay, h]

/-- C4: a message containing no parseable retry_delay pattern yields no
hint from extract_retry_delay (which is a total function by construction,
modelling the try/except of the source that can never raise) and the
subsequent rate-limit wait is exactly RATE_LIMIT_DELAY. -/
theorem c4_malformed_hint_fallback (msg : String)
    (h : ¬ IsHintOccurrence msg) :
    extract_retry_delay msg = none ∧
    handle_rate_limit_delay (extract_retry_delay msg) = RATE_LIMIT_DELAY := by
  have hnone : extract_retry_delay msg = none := by
    cases hx : extract_retry_delay msg with
    | none => rfl
    | some v => exact absurd (extract_retry_delay_sound msg v hx) h
  exact ⟨hnone, by rw [hnone]; rfl⟩

/-- witness for C4 on a concrete hint-free message. -/
theorem c4_malformed_hint_fallback_witness :
    extract_retry_delay "quota exceeded" = none ∧
    handle_rate_limit_delay (extract_retry_delay "quota exceeded")
      = RATE_LIMIT_DELAY :=
  c4_malformed_hint_fallback "quota exceeded"
    (fun hocc => absurd (isHint_contains _ hocc) (by decide))

/-- C5: when every attempt fails, whatever the classification of each
failure, no wait follows the final attempt: the trace ends with the final
invocation and the terminal failure is raised immediately. -/
theorem c5_final_attempt_no_wait {α : Type} (op : Nat → Except Err α)
    (err : Nat → Err) (n : Nat) (hn : 1 ≤ n)
    (hop : ∀ i, op i = Except.error (err i)) :
    (∃ tr, (execute_with_retry op n).1 = tr ++ [Event.invoke (n - 1)]) ∧
    (execute_with_retry op n).2 = RetryResult.exhausted (err (n - 1)) := by
  obtain ⟨hres, -, htr⟩ :=
    retryLoopAux_all_fail op err hop n n 0 none (by omega) (by omega)
  exact ⟨htr, hres⟩

/-- witness for C5: a rate-limited failure on the single allowed attempt is
followed by no wait. -/
theorem c5_final_attempt_no_wait_witness :
    (∃ tr, (execute_with_retry
      ((fun _ => Except.error (Err.rateLimited "quota")) :
        Nat → Except Err Unit) 1).1 = tr ++ [Event.invoke 0]) ∧
    (execute_with_retry
      ((fun _ => Except.error (Err.rateLimited "quota")) :
        Nat → Except Err Unit) 1).2
      = RetryResult.exhausted (Err.rateLimited "quota") :=
  c5_final_attempt_no_wait _ (fun _ => Err.rateLimited "quota") 1 (by omega)
    (fun _ => rfl)

/-- C6: with jitter fixed to 0, calculate_delay is monotonically
non-decreasing in the attempt index, and for every attempt index and every
jitter between 0 and JITTER_MAX the delay is at most
MAX_REQUEST_DELAY + JITTER_MAX. -/
theorem c6_backoff_monotone_bounded :
    (∀ i : Nat, calculate_delay i 0 ≤ calculate_delay (i + 1) 0) ∧
    (∀ (i : Nat) (j : ℚ), 0 ≤ j → j ≤ JITTER_MAX →
      calculate_delay i j ≤ MAX_REQUEST_DELAY + JITTER_MAX) := by
  constructor
  · intro i
    unfold calculate_delay
    have hle : (1 : ℚ) ≤ EXPONENTIAL_BACKOFF_MULTIPLIER := by
      norm_num [EXPONENTIAL_BACKOFF_MULTIPLIER]
    have hb : (0 : ℚ) ≤ BASE_REQUEST_DELAY := by
      norm_num [BASE_REQUEST_DELAY]
    have h : BASE_REQUEST_DELAY * EXPONENTIAL_BACKOFF_MULTIPLIER ^ i ≤
        BASE_REQUEST_DELAY * EXPONENTIAL_BACKOFF_MULTIPLIER ^ (i + 1) :=
      mul_le_mul_of_nonneg_left
        (pow_le_pow_right₀ hle (Nat.le_succ i)) hb
    exact add_le_add_right (min_le_min h le_rfl) 0
  · intro i j hj0 hj2
    unfold calculate_delay
    exact add_le_add (min_le_right _ _) hj2

/-- witness for C6 at attempt index 2 with jitter 1. -/
theorem c6_backoff_monotone_bounded_witness :
    calculate_delay 2 0 ≤ calculate_delay 3 0 ∧
    (0 : ℚ) ≤ 1 ∧ (1 : ℚ) ≤ JITTER_MAX ∧
    calculate_delay 2 1 ≤ MAX_REQUEST_DELAY + JITTER_MAX :=
  ⟨c6_backoff_monotone_bounded.1 2, by norm_num, by norm_num [JITTER_MAX],
    c6_backoff_monotone_bounded.2 2 1 (by norm_num)
      (by norm_num [JITTER_MAX])⟩

/-- C7 counterexample: with max_retries = 2 and an always generic-failing
operation, the number of waits is not 1 as claimed: the code also sleeps
wait_between_requests(attempt) right after a non-final generic failure, in
addition to the pre-attempt wait of the next iteration. -/
theorem c7_single_wait_counterexample :
    numWaits (execute_with_retry opC7 2).1 ≠ 1 := by decide

/-- C7 amended: with max_retries = 2 and an always generic-failing
operation there are exactly 2 invocations and exactly 2 waits: a backoff
computed from attempt index 0 immediately after the first failure, then
the standard pre-attempt backoff computed from attempt index 1; the
terminal failure wraps the second error. -/
theorem c7_amended_two_waits :
    execute_with_retry opC7 2 =
      ([Event.invoke 0, Event.backoffWait 0, Event.backoffWait 1,
        Event.invoke 1],
       RetryResult.exhausted (Err.generic "second")) := by decide

/-- C8 counterexample: with max_retries = 3 and an operation rate-limited
(no hint) on the first two attempts then succeeding, the number of waits
is not 2 as claimed: the rate-limit wait does not replace the standard
pre-attempt backoff, both are performed. -/
theorem c8_two_waits_counterexample :
    numWaits (execute_with_retry opC8 3).1 ≠ 2 := by decide

/-- C8 amended: the run performs exactly four waits, namely a rate-limit
wait of RATE_LIMIT_DELAY seconds after each of the two rate-limited
failures and additionally the standard pre-attempt backoff before attempts
2 and 3 (computed from attempt indices 1 and 2); the operation is invoked
exactly 3 times and the successful result is returned. -/
theorem c8_amended_four_waits :
    execute_with_retry opC8 3 =
      ([Event.invoke 0, Event.rateLimitWait RATE_LIMIT_DELAY,
        Event.backoffWait 1, Event.invoke 1,
        Event.rateLimitWait RATE_LIMIT_DELAY, Event.backoffWait 2,
        Event.invoke 2],
       RetryResult.ok ()) := by decide

/-- C9: when all attempts fail with max_retries at least 1, the terminal
failure carries exactly the error of the final attempt; no retryable
failure propagates out of execute_with_retry. -/
theorem c9_exhausted_last_error {α : Type} (op : Nat → Except Err α)
    (err : Nat → Err) (n : Nat) (hn : 1 ≤ n)
    (hop : ∀ i, op i = Except.error (err i)) :
    (execute_with_retry op n).2 = RetryResult.exhausted (err (n - 1)) := by
  obtain ⟨hres, -, -⟩ :=
    retryLoopAux_all_fail op err hop n n 0 none (by omega) (by omega)
  exact hres

/-- witness for C9: with two distinguishable generic errors and budget 2
the terminal failure wraps the second error, not the first. -/
theorem c9_exhausted_last_error_witness :
    (execute_with_retry opC9 2).2
      = RetryResult.exhausted (Err.generic "second error") :=
  c9_exhausted_last_error opC9 errC9 2 (by omega) (fun _ => rfl)

/-- C10: with an explicit max_retries = 0 the operation is never invoked
and no wait occurs (the trace is empty) and the defensive generic failure,
distinct from any error of the operation, is raised; that defensive branch
is reachable exactly when the retry budget is zero. -/
theorem c10_zero_budget {α : Type} (op : Nat → Except Err α) (n : Nat) :
    execute_with_retry op 0 = ([], RetryResult.noAttempts) ∧
    ((execute_with_retry op n).2 = RetryResult.noAttempts ↔ n = 0) := by
  refine ⟨rfl, ?_, ?_⟩
  · intro h
    by_contra hn
    exact retryLoopAux_pos_ne op n n 0 none (by omega) h
  · intro h
    subst h
    rfl

end JobPostingCrew
